import Mathlib

/-!
Verification of the Hybrid Step-Resolution Engine of the rondah-ai/opencode
QA automation scripts.  The definitions below are a shallow embedding of the
JavaScript/TypeScript sources: the knowledge-base store, the selector
normalizer, parameter substitution, the three-tier strategy resolver
(`executeStepHybrid`), the flow interpreter loop, and the required-parameter
validation of the `execute_flow` tool.  Confidence scores are modelled as
rationals; external collaborators (the MD5 digest from `crypto`, the
Playwright page, the AI oracle, the wall clock) are threaded through as
explicit parameters, since their behavior is outside the repository.
-/

set_option maxRecDepth 4096

namespace QA

/-- Character constants used by the scanners, written via code points. -/
def dollarChar : Char := Char.ofNat 36

/-- Left curly brace character. -/
def lbrace : Char := Char.ofNat 123

/-- Right curly brace character. -/
def rbrace : Char := Char.ofNat 125

/-- Single-quote character. -/
def squote : Char := Char.ofNat 39

/-- Double-quote character. -/
def dquote : Char := Char.ofNat 34

/-- Word character class of the JavaScript regexes (`\w` = `[A-Za-z0-9_]`). -/
def isWordChar (c : Char) : Bool := c.isAlphanum || c = '_'

/-- Quote character class of the regex `[the two quote characters]`. -/
def isQuoteChar (c : Char) : Bool := c = squote || c = dquote

/-- JavaScript truthiness filter on an optional string: `undefined` and the
empty string are falsy, everything else is kept. -/
def truthyLookup (params : String → Option String) (k : String) : Option String :=
  match params k with
  | some v => if v = "" then none else some v
  | none => none

/-- JavaScript `a || b` for an optional string `a` against a string default:
`a` is used when it is present and non-empty. -/
def truthyOr (a : Option String) (b : String) : String :=
  match a with
  | some v => if v = "" then b else v
  | none => b

/-- Take the first `n` characters of a string (JS `slice(0, n)` on our inputs). -/
def strTake (s : String) (n : Nat) : String := String.mk (s.data.take n)

/-- Index of the first occurrence of `pat` in a character list (JS `indexOf`). -/
def indexOfAux (pat : List Char) : List Char → Nat → Option Nat
  | [], i => if pat.isPrefixOf ([] : List Char) then some i else none
  | c :: t, i => if pat.isPrefixOf (c :: t) then some i else indexOfAux pat t (i + 1)

/-- JavaScript `s.includes(sub)`. -/
def jsIncludes (s sub : String) : Bool := (indexOfAux sub.data s.data 0).isSome

/-- JavaScript `s.startsWith(pre)`. -/
def strStartsWith (s pre : String) : Bool := pre.data.isPrefixOf s.data

/-! ### Parameter substitution (`replaceParams`, src/unnamed/part_004:970-975)

The source runs two global regex replaces in sequence:
`str.replace(re1, cb)` for the dollar-brace token form and
`str.replace(re2, cb)` for the bare-brace token form, where the callback is
`(match, key) => params[key] || match` — a falsy (absent or empty) parameter
leaves the matched token verbatim, and scanning resumes after the match.
-/

/-- Try to match the tail of a dollar-brace token at the current position:
`t` is the text following a dollar sign; on a match, return the replacement
text (the looked-up value, or the original token when the lookup is falsy)
together with the rest of the input after the match. -/
def dollarTok (look : String → Option String) (t : List Char) :
    Option (List Char × List Char) :=
  match t with
  | [] => none
  | c :: r =>
    if c = lbrace then
      match r.dropWhile isWordChar with
      | c2 :: rest =>
        if c2 = rbrace ∧ r.takeWhile isWordChar ≠ [] then
          some ((match look (String.mk (r.takeWhile isWordChar)) with
                 | some v => v.data
                 | none => dollarChar :: lbrace :: (r.takeWhile isWordChar ++ [rbrace])),
                rest)
        else none
      | [] => none
    else none

/-- Fueled scanner for the global dollar-brace replace; the fuel is an upper
bound on the input length, so the top-level wrapper always passes enough. -/
def dollarGo (look : String → Option String) : Nat → List Char → List Char
  | 0, l => l
  | _ + 1, [] => []
  | f + 1, c :: t =>
    if c = dollarChar then
      match dollarTok look t with
      | some (out, rest) => out ++ dollarGo look f rest
      | none => c :: dollarGo look f t
    else c :: dollarGo look f t

/-- Global dollar-brace token replace. -/
def dollarRepl (look : String → Option String) (l : List Char) : List Char :=
  dollarGo look l.length l

/-- Try to match the tail of a bare-brace token: `r` is the text following a
left brace. -/
def braceTok (look : String → Option String) (r : List Char) :
    Option (List Char × List Char) :=
  match r.dropWhile isWordChar with
  | c2 :: rest =>
    if c2 = rbrace ∧ r.takeWhile isWordChar ≠ [] then
      some ((match look (String.mk (r.takeWhile isWordChar)) with
             | some v => v.data
             | none => lbrace :: (r.takeWhile isWordChar ++ [rbrace])),
            rest)
    else none
  | [] => none

/-- Fueled scanner for the global bare-brace replace. -/
def braceGo (look : String → Option String) : Nat → List Char → List Char
  | 0, l => l
  | _ + 1, [] => []
  | f + 1, c :: t =>
    if c = lbrace then
      match braceTok look t with
      | some (out, rest) => out ++ braceGo look f rest
      | none => c :: braceGo look f t
    else c :: braceGo look f t

/-- Global bare-brace token replace. -/
def braceRepl (look : String → Option String) (l : List Char) : List Char :=
  braceGo look l.length l

/-- Embedding of `replaceParams` (src/unnamed/part_004:970-975): the falsy
guard on the input, then the dollar-brace pass followed by the bare-brace
pass, each leaving falsy-keyed tokens verbatim. -/
def replaceParams (str : String) (params : String → Option String) : String :=
  if str = "" then str
  else String.mk (braceRepl (truthyLookup params)
    (dollarRepl (truthyLookup params) str.data))

/-! ### Selector normalization (`convertSelector`)

Source (src/unnamed/part_004:977-984): a global replace of the contains
pseudo-function by a has-text pseudo-class, then — only when the result still
starts with the contains pseudo-function — a single replace by a `text=`
selector.  The tool variant (src/tools/execute_flow.ts:437-453) cuts the
selector at the first `:contains` and appends a has-text pseudo-class, and
otherwise rewrites `:first-child` to `:nth-child(1)`.
-/

/-- Literal character list for the string `:contains(`. -/
def containsPat : List Char := (":contains(").data

/-- Match the regex `:contains four-args quoted-body` at the current position:
returns the quoted body and the rest after the closing parenthesis.  The
opening and closing quote characters need not agree, exactly as in the
character-class based source regex. -/
def matchContainsAt (l : List Char) : Option (List Char × List Char) :=
  if containsPat.isPrefixOf l then
    match l.drop 10 with
    | q :: r =>
      if isQuoteChar q then
        match r.dropWhile (fun c => !isQuoteChar c) with
        | q2 :: c2 :: rest =>
          if isQuoteChar q2 && c2 = ')' && !(r.takeWhile (fun c => !isQuoteChar c)).isEmpty then
            some (r.takeWhile (fun c => !isQuoteChar c), rest)
          else none
        | _ => none
      else none
    | [] => none
  else none

/-- Fueled scanner for the global contains-to-has-text replace. -/
def hasTextGo : Nat → List Char → List Char
  | 0, l => l
  | _ + 1, [] => []
  | f + 1, c :: t =>
    match matchContainsAt (c :: t) with
    | some (body, rest) =>
      (":has-text(").data ++ dquote :: body ++ dquote :: ')' :: hasTextGo f rest
    | none => c :: hasTextGo f t

/-- Fueled scanner for the single (non-global) contains-to-text replace; the
rest of the input after the first match is left untouched. -/
def textEqFirstGo : Nat → List Char → List Char
  | 0, l => l
  | _ + 1, [] => []
  | f + 1, c :: t =>
    match matchContainsAt (c :: t) with
    | some (body, rest) => ("text=").data ++ body ++ rest
    | none => c :: textEqFirstGo f t

/-- Embedding of the engine `convertSelector` (src/unnamed/part_004:977-984):
global contains-to-has-text rewrite, then the bare-case `text=` rewrite,
guarded by a startsWith check on the already-rewritten string. -/
def convertSelector (selector : String) : String :=
  if selector = "" then selector
  else
    let s1 := hasTextGo selector.data.length selector.data
    let s2 := if containsPat.isPrefixOf s1 then textEqFirstGo s1.length s1 else s1
    String.mk s2

/-- Body of the first contains pseudo-function match anywhere in the input
(the tool's single `selector.match(...)`). -/
def firstContainsMatch : Nat → List Char → Option (List Char)
  | 0, _ => none
  | _ + 1, [] => none
  | f + 1, c :: t =>
    match matchContainsAt (c :: t) with
    | some (body, _) => some body
    | none => firstContainsMatch f t

/-- Fueled global literal replace (for the tool's `:first-child` rewrite). -/
def replaceAllLitGo (pat repl : List Char) : Nat → List Char → List Char
  | 0, l => l
  | _ + 1, [] => []
  | f + 1, c :: t =>
    if pat.isPrefixOf (c :: t) ∧ pat ≠ [] then
      repl ++ replaceAllLitGo pat repl f ((c :: t).drop pat.length)
    else c :: replaceAllLitGo pat repl f t

/-- Embedding of the tool `convertSelector` (src/tools/execute_flow.ts:437-453),
named apart to coexist with the engine version. -/
def convertSelectorTool (selector : String) : String :=
  if jsIncludes selector ":contains(" then
    match firstContainsMatch selector.data.length selector.data with
    | some body =>
      let base := match indexOfAux (":contains").data selector.data 0 with
                  | some i => selector.data.take i
                  | none => ([] : List Char)
      String.mk (base ++ (":has-text(").data ++ dquote :: body ++ [dquote, ')'])
    | none =>
      String.mk (replaceAllLitGo (":first-child").data (":nth-child(1)").data
        selector.data.length selector.data)
  else
    String.mk (replaceAllLitGo (":first-child").data (":nth-child(1)").data
      selector.data.length selector.data)

/-! ### Knowledge base store (src/unnamed/part_004:815-949)

The JS knowledge base is a `Map` from solution id to solution.  We model the
map as an association list in insertion order; `mapSet` overwrites the value
in place when the key exists (a JS `Map.set` keeps the original insertion
position on overwrite) and appends otherwise, `mapGet` is first-match lookup,
and `mapDelete` removes the key.  The MD5 digest used by `generateKey` comes
from the external `crypto` module and is threaded through as an abstract
`hash` function.
-/

/-- Context of a learned solution (the `pageContext` object). -/
structure PageContext where
  url : String
  pageType : String
deriving DecidableEq, Repr

/-- Knowledge-base entry (`Solution`), with the exact field set written by
`recordSolution` (src/unnamed/part_004:894-914).  `confidence` is the JS
number modelled as a rational. -/
structure Solution where
  id : String
  flowPath : String
  stepAction : String
  originalSelector : String
  learnedSelector : String
  confidence : ℚ
  successCount : Nat
  failureCount : Nat
  pageContext : PageContext
  learnedAt : String
  lastUsed : String
deriving DecidableEq, Repr

/-- Knowledge base: `Map` from solution id to solution, in insertion order. -/
abbrev KB := List (String × Solution)

/-- First-match lookup (JS `Map.get`). -/
def mapGet {α : Type} (k : String) : List (String × α) → Option α
  | [] => none
  | (k', v) :: t => if k' = k then some v else mapGet k t

/-- JS `Map.set`: overwrite in place when the key exists, append otherwise. -/
def mapSet {α : Type} (k : String) (v : α) : List (String × α) → List (String × α)
  | [] => [(k, v)]
  | (k', v') :: t => if k' = k then (k, v) :: t else (k', v') :: mapSet k v t

/-- JS `Map.delete`. -/
def mapDelete {α : Type} (k : String) (m : List (String × α)) : List (String × α) :=
  m.filter (fun p => !(p.1 == k))

/-- Embedding of `classifyPage` (src/unnamed/part_004:943-949). -/
def classifyPage (url : String) : String :=
  if jsIncludes url "/login" then "authentication"
  else if jsIncludes url "/dashboard" then "dashboard"
  else if jsIncludes url "/call" then "call-management"
  else if jsIncludes url "/appointment" then "appointments"
  else "general"

/-- Per-flow-run execution context (src/unnamed/part_004:475-479). -/
structure ExecutionContext where
  flowPath : String
  url : String
  pageType : String
deriving DecidableEq, Repr

/-- Step template object; fields absent in a given flow file are `none`. -/
structure Step where
  action : String
  selector : Option String
  target : Option String
  value : Option String
  url : Option String
  description : Option String
deriving DecidableEq, Repr

/-- Embedding of `generateKey` (src/unnamed/part_004:936-941): the lookup key
is the action, a dash, and the first eight hex characters of the MD5 digest
of the raw (pre-substitution) selector. -/
def generateKey (hash : String → String) (step : Step) : String :=
  let selector := truthyOr step.selector (truthyOr step.target "")
  step.action ++ "-" ++ strTake (hash selector) 8

/-- Fallback scan of `findLearnedSolution` (src/unnamed/part_004:883-889):
first value in insertion order with the same action, the same page type, and
confidence strictly above 0.75. -/
def scanSimilar (step : Step) (context : ExecutionContext) (kb : KB) : Option Solution :=
  (kb.find? (fun p =>
    p.2.stepAction == step.action
      && p.2.pageContext.pageType == context.pageType
      && decide ((3 : ℚ)/4 < p.2.confidence))).map (fun p => p.2)

/-- Embedding of `findLearnedSolution` (src/unnamed/part_004:874-892): exact
key match with confidence strictly above 0.8, else the fallback scan. -/
def findLearnedSolution (hash : String → String) (step : Step)
    (context : ExecutionContext) (kb : KB) : Option Solution :=
  match mapGet (generateKey hash step) kb with
  | some exact =>
    if (4 : ℚ)/5 < exact.confidence then some exact
    else scanSimilar step context kb
  | none => scanSimilar step context kb

/-- Embedding of `recordSolution` (src/unnamed/part_004:894-914): a new entry
with initial confidence 0.7, one success, no failures. -/
def recordSolution (hash : String → String) (now : String) (step : Step)
    (learnedSelector : String) (context : ExecutionContext) (kb : KB) : KB :=
  let solution : Solution := {
    id := generateKey hash step
    flowPath := context.flowPath
    stepAction := step.action
    originalSelector := truthyOr step.selector (truthyOr step.target "")
    learnedSelector := learnedSelector
    confidence := 7/10
    successCount := 1
    failureCount := 0
    pageContext := { url := context.url, pageType := context.pageType }
    learnedAt := now
    lastUsed := now }
  mapSet solution.id solution kb

/-- Embedding of `recordSuccess` (src/unnamed/part_004:916-923): bump the
success count, refresh `lastUsed`, raise confidence by 0.02 capped at 0.99. -/
def recordSuccess (now : String) (solutionId : String) (kb : KB) : KB :=
  match mapGet solutionId kb with
  | none => kb
  | some s =>
    mapSet solutionId
      { s with successCount := s.successCount + 1, lastUsed := now,
               confidence := min ((99 : ℚ)/100) (s.confidence + 1/50) } kb

/-- Embedding of `recordFailure` (src/unnamed/part_004:925-934): bump the
failure count, lower confidence by 0.1 clamped at 0.3, and delete the entry
when the clamped confidence is below 0.4. -/
def recordFailure (solutionId : String) (kb : KB) : KB :=
  match mapGet solutionId kb with
  | none => kb
  | some s =>
    let c := max ((3 : ℚ)/10) (s.confidence - 1/10)
    if c < (2 : ℚ)/5 then mapDelete solutionId kb
    else mapSet solutionId
      { s with failureCount := s.failureCount + 1, confidence := c } kb

/-- Persisted solutions file `{ version, lastUpdated, solutions }`
(src/unnamed/part_004:830-838 and 856-862); the parallel patterns file has
the identical shape and is handled by the same code. -/
structure SolutionsFile where
  version : String
  lastUpdated : String
  solutions : List Solution
deriving DecidableEq, Repr

/-- Embedding of the solutions half of `loadKnowledgeBase`
(src/unnamed/part_004:817-852): `new Map(data.solutions.map(s => [s.id, s]))`. -/
def loadKnowledgeBase (f : SolutionsFile) : KB :=
  f.solutions.foldl (fun m s => mapSet s.id s m) []

/-- Embedding of the solutions half of `saveKnowledgeBase`
(src/unnamed/part_004:854-872): version is rewritten to "1.0", `lastUpdated`
to the time of the save, and the map values are written in order. -/
def saveKnowledgeBase (now : String) (kb : KB) : SolutionsFile :=
  { version := "1.0", lastUpdated := now, solutions := kb.map (fun p => p.2) }

/-! ### The three-tier strategy resolver (src/unnamed/part_004:510-603)

`executeStepHybrid` is embedded as a pure function over an environment that
abstracts the external collaborators: `driver action selector` is the success
of one `executeAction` call against the live page (the page state, the typed
value, and the driver timeout are folded into this oracle, since they live
outside the repository), `navDriver` the success of a `page.goto`, `oracle`
the selector suggested by the AI vision call (`none` when the call fails or
its response cannot be parsed), `aiClient` whether an ANTHROPIC_API_KEY was
present, and `now`/`hash` the wall clock and the MD5 digest.  The returned
`trace` lists the tier attempts in order with their outcomes, and
`kbConsulted` records whether `findLearnedSolution` was reached.
-/

/-- Resolution tier. -/
inductive Tier where
  | deterministic
  | learned
  | ai
deriving DecidableEq, Repr

/-- External collaborators of the resolver. -/
structure HybridEnv where
  hash : String → String
  driver : String → String → Bool
  navDriver : String → Bool
  oracle : Option String
  aiClient : Bool
  now : String

/-- Runner configuration relevant to the resolver (src/unnamed/part_004:150-162). -/
structure RunConfig where
  url : String
  email : Option String
  password : Option String
  mode : String

/-- Observable outcome of one `executeStepHybrid` call. -/
structure StepOutcome where
  result : Except String Unit
  kb : KB
  kbConsulted : Bool
  trace : List (Tier × Bool)

/-- The parameter object `{email, password, baseUrl}` built at the top of
`executeStepHybrid` (src/unnamed/part_004:516-520). -/
def stepParams (config : RunConfig) : String → Option String := fun k =>
  if k = "email" then config.email
  else if k = "password" then config.password
  else if k = "baseUrl" then some config.url
  else none

/-- The AI fallback phase of `executeStepHybrid` (src/unnamed/part_004:580-602),
entered with the knowledge base as left by the learned attempt. -/
def aiPhase (env : HybridEnv) (config : RunConfig) (step : Step)
    (context : ExecutionContext) (kb : KB) (trace : List (Tier × Bool)) : StepOutcome :=
  let failMsg := "All execution methods failed for step: " ++ step.action
  if env.aiClient = true ∧ config.mode = "hybrid" then
    match env.oracle with
    | some aiSel =>
      if env.driver step.action aiSel then
        { result := Except.ok (),
          kb := recordSolution env.hash env.now step aiSel context kb,
          kbConsulted := true, trace := trace ++ [(Tier.ai, true)] }
      else
        { result := Except.error failMsg, kb := kb, kbConsulted := true,
          trace := trace ++ [(Tier.ai, false)] }
    | none =>
      { result := Except.error failMsg, kb := kb, kbConsulted := true,
        trace := trace ++ [(Tier.ai, false)] }
  else
    { result := Except.error failMsg, kb := kb, kbConsulted := true, trace := trace }

/-- The substituted, normalized selector computed at the top of
`executeStepHybrid` (src/unnamed/part_004:522-523):
`convertSelector(replaceParams(step.selector || step.target || '', params))`. -/
def selectorOf (config : RunConfig) (step : Step) : String :=
  convertSelector
    (replaceParams (truthyOr step.selector (truthyOr step.target "")) (stepParams config))

/-- The raw navigation url `step.url || step.target || ''`
(src/unnamed/part_004:525), which the source does not substitute. -/
def urlOf (step : Step) : String := truthyOr step.url (truthyOr step.target "")

/-- The full navigation url (src/unnamed/part_004:529-534): a path starting
with a slash is appended to the configured base url, an empty url falls back
to the base url, anything else is used as is. -/
def fullUrlOf (config : RunConfig) (step : Step) : String :=
  let url := urlOf step
  if url ≠ "" ∧ strStartsWith url "/" then config.url ++ url
  else if url = "" then config.url
  else url

/-- Embedding of `executeStepHybrid` (src/unnamed/part_004:510-603): parameter
substitution and selector normalization, the direct navigate/screenshot
paths, then the Deterministic, Learned and AI tiers in order. -/
def executeStepHybrid (env : HybridEnv) (config : RunConfig)
    (context : ExecutionContext) (step : Step) (kb : KB) : StepOutcome :=
  if step.action = "navigate" then
    if env.navDriver (fullUrlOf config step) then
      { result := Except.ok (), kb := kb, kbConsulted := false, trace := [] }
    else
      { result := Except.error ("navigation failed: " ++ fullUrlOf config step), kb := kb,
        kbConsulted := false, trace := [] }
  else if step.action = "screenshot" then
    { result := Except.ok (), kb := kb, kbConsulted := false, trace := [] }
  else if env.driver step.action (selectorOf config step) then
    { result := Except.ok (), kb := kb, kbConsulted := false,
      trace := [(Tier.deterministic, true)] }
  else
    match findLearnedSolution env.hash step context kb with
    | some sol =>
      if env.driver step.action sol.learnedSelector then
        { result := Except.ok (), kb := recordSuccess env.now sol.id kb,
          kbConsulted := true,
          trace := [(Tier.deterministic, false), (Tier.learned, true)] }
      else
        aiPhase env config step context (recordFailure sol.id kb)
          [(Tier.deterministic, false), (Tier.learned, false)]
    | none =>
      aiPhase env config step context kb [(Tier.deterministic, false)]

/-- Flow-level result (src/unnamed/part_004:428-508). -/
structure FlowResult where
  status : String
  error : Option String
  stepsAttempted : Nat
  kb : KB

/-- The step loop of `executeFlow` (src/unnamed/part_004:482-505): steps run
strictly in order, the first raised error fails the flow. -/
def runSteps (env : HybridEnv) (config : RunConfig) (context : ExecutionContext) :
    List Step → KB → Nat → FlowResult
  | [], kb, n => { status := "passed", error := none, stepsAttempted := n, kb := kb }
  | step :: rest, kb, n =>
    let o := executeStepHybrid env config context step kb
    match o.result with
    | Except.ok _ => runSteps env config context rest o.kb (n + 1)
    | Except.error msg =>
      { status := "failed", error := some msg, stepsAttempted := n + 1, kb := o.kb }

/-- Embedding of `executeFlow` (src/unnamed/part_004:428-508) specialized to a
resolved flow: build the execution context and run the steps in order. -/
def executeFlow (env : HybridEnv) (config : RunConfig) (flowPath : String)
    (steps : List Step) (kb : KB) : FlowResult :=
  let context : ExecutionContext :=
    { flowPath := flowPath, url := config.url, pageType := classifyPage config.url }
  runSteps env config context steps kb 0

/-! ### Required-parameter validation (src/tools/execute_flow.ts:132-173)

`ExecuteFlowTool.execute` validates required parameters before the step loop:
parameters missing from the call are filled from the spread of the flow
file's `testData` and `testCredentials` maps (the spread puts
`testCredentials` last, so it wins), but only when the default value is
truthy — a JS falsy check, so an empty-string default is not applied.  If any
required parameter is still missing the tool returns the missing-parameters
error before any step runs.
-/

/-- The `commonParameters` maps of the QA flows file. -/
structure QAContextFlows where
  testData : List (String × String)
  testCredentials : List (String × String)
deriving DecidableEq, Repr

/-- Lookup in `{...testData, ...testCredentials}`: the later spread wins. -/
def defaultsLookup (q : QAContextFlows) (k : String) : Option String :=
  match mapGet k q.testCredentials with
  | some v => some v
  | none => mapGet k q.testData

/-- Default value that actually gets applied: present and truthy (non-empty). -/
def truthyDefault (q : QAContextFlows) (k : String) : Option String :=
  match defaultsLookup q k with
  | some v => if v = "" then none else some v
  | none => none

/-- The default-filling loop (src/tools/execute_flow.ts:136-146). -/
def fillDefaults (required : List String) (flowParams : List (String × String))
    (q : QAContextFlows) : List (String × String) :=
  let missingParams := required.filter (fun p => (mapGet p flowParams).isNone)
  missingParams.foldl
    (fun fp m =>
      match defaultsLookup q m with
      | some v => if v = "" then fp else mapSet m v fp
      | none => fp)
    flowParams

/-- The validation prefix of `ExecuteFlowTool.execute`
(src/tools/execute_flow.ts:132-173): compute the missing required parameters,
fill defaults, and return the still-missing list as the error. -/
def validateFlowParams (required : List String) (supplied : List (String × String))
    (q : QAContextFlows) : Except (List String) (List (String × String)) :=
  let missingParams := required.filter (fun p => (mapGet p supplied).isNone)
  if missingParams.isEmpty then Except.ok supplied
  else
    let fp := fillDefaults required supplied q
    let stillMissing := required.filter (fun p => (mapGet p fp).isNone)
    if stillMissing.isEmpty then Except.ok fp else Except.error stillMissing

/-- Observable control flow of the tool around validation: the step loop is
reached exactly when validation did not return the missing-parameters error. -/
structure ToolRun where
  missingError : Option (List String)
  flowParams : List (String × String)
  stepLoopReached : Bool

/-- Validation-stage control flow of `ExecuteFlowTool.execute`: an error
return leaves the step loop unreached. -/
def executeFlowTool (required : List String) (supplied : List (String × String))
    (q : QAContextFlows) : ToolRun :=
  match validateFlowParams required supplied q with
  | Except.error m =>
    { missingError := some m, flowParams := fillDefaults required supplied q,
      stepLoopReached := false }
  | Except.ok fp =>
    { missingError := none, flowParams := fp, stepLoopReached := true }

/-! ### Knowledge-base lifecycle events

Every mutation of the knowledge base performed by the resolver goes through
`recordSolution`, `recordSuccess` or `recordFailure`; a lifecycle is a
sequence of such events applied to the initially empty base.
-/

/-- One knowledge-base mutation as performed by the resolver. -/
inductive KBEvent where
  | learn (step : Step) (selector : String) (context : ExecutionContext) (now : String)
  | succeed (id : String) (now : String)
  | fail (id : String)

/-- Apply one lifecycle event. -/
def applyEvent (hash : String → String) (kb : KB) : KBEvent → KB
  | KBEvent.learn step selector context now => recordSolution hash now step selector context kb
  | KBEvent.succeed id now => recordSuccess now id kb
  | KBEvent.fail id => recordFailure id kb

/-- Apply a sequence of lifecycle events. -/
def applyEvents (hash : String → String) (events : List KBEvent) (kb : KB) : KB :=
  events.foldl (applyEvent hash) kb

/-! ### Token-level view of parameter substitution

For the substitution contract we describe an input string as a sequence of
segments: literal characters, bare-brace tokens and dollar-brace tokens;
`renderToks` prints the sequence and `substToks` is the intended
token-by-token substitution.
-/

/-- One segment of a parameter-bearing string. -/
inductive Tok where
  | lit (c : Char)
  | brace (k : String)
  | dollar (k : String)
deriving DecidableEq, Repr

/-- Print one segment. -/
def renderTok : Tok → List Char
  | Tok.lit c => [c]
  | Tok.brace k => lbrace :: (k.data ++ [rbrace])
  | Tok.dollar k => dollarChar :: lbrace :: (k.data ++ [rbrace])

/-- Print a segment sequence. -/
def renderToks : List Tok → List Char
  | [] => []
  | tk :: rest => renderTok tk ++ renderToks rest

/-- Token-by-token substitution: a token whose key looks up to a truthy value
is replaced by it, any other token is left verbatim. -/
def substTok (look : String → Option String) : Tok → List Char
  | Tok.lit c => [c]
  | Tok.brace k =>
    match look k with
    | some v => v.data
    | none => lbrace :: (k.data ++ [rbrace])
  | Tok.dollar k =>
    match look k with
    | some v => v.data
    | none => dollarChar :: lbrace :: (k.data ++ [rbrace])

/-- Token-by-token substitution of a sequence. -/
def substToks (look : String → Option String) : List Tok → List Char
  | [] => []
  | tk :: rest => substTok look tk ++ substToks look rest

/-- Intermediate print: dollar-brace tokens substituted, the rest verbatim
(the state of the string between the two replace passes). -/
def substDollarToks (look : String → Option String) : List Tok → List Char
  | [] => []
  | Tok.lit c :: rest => c :: substDollarToks look rest
  | Tok.brace k :: rest => lbrace :: (k.data ++ [rbrace]) ++ substDollarToks look rest
  | Tok.dollar k :: rest =>
    (match look k with
     | some v => v.data
     | none => dollarChar :: lbrace :: (k.data ++ [rbrace])) ++ substDollarToks look rest

/-! ### Concrete sample data for witnesses and counterexamples -/

/-- Stand-in for the external MD5 hex digest used in concrete runs. -/
def hash0 : String → String := fun _ => "00000000"

/-- Environment where every driver action fails and no AI oracle is configured. -/
def env0 : HybridEnv :=
  { hash := hash0, driver := fun _ _ => false, navDriver := fun _ => false,
    oracle := none, aiClient := false, now := "2025-01-01T00:00:00.000Z" }

/-- Environment where every driver action succeeds. -/
def envDet : HybridEnv :=
  { hash := hash0, driver := fun _ _ => true, navDriver := fun _ => true,
    oracle := none, aiClient := false, now := "2025-01-01T00:00:00.000Z" }

/-- Runner configuration for the concrete scenarios. -/
def config0 : RunConfig :=
  { url := "https://example.com", email := none, password := none, mode := "hybrid" }

/-- Single click step whose selector matches nothing. -/
def step0 : Step :=
  { action := "click", selector := none, target := some "#missing",
    value := none, url := none, description := none }

/-- Execution context of the concrete scenarios. -/
def ctx0 : ExecutionContext :=
  { flowPath := "prompt.test", url := "https://example.com", pageType := "general" }

/-- Learned solution with confidence 0.78 matching `step0` by (action, pageType). -/
def sol78 : Solution :=
  { id := "click-00000000", flowPath := "prompt.test", stepAction := "click",
    originalSelector := "#missing", learnedSelector := "button",
    confidence := 39/50, successCount := 1, failureCount := 0,
    pageContext := { url := "https://example.com", pageType := "general" },
    learnedAt := "t0", lastUsed := "t0" }

/-- Knowledge base holding only `sol78`. -/
def kb78 : KB := [(sol78.id, sol78)]

/-- The solution created by `recordSolution hash0` from `step0` in `ctx0`. -/
def sol1 : Solution :=
  { id := "click-00000000", flowPath := "prompt.test", stepAction := "click",
    originalSelector := "#missing", learnedSelector := "button",
    confidence := 7/10, successCount := 1, failureCount := 0,
    pageContext := { url := "https://example.com", pageType := "general" },
    learnedAt := "t0", lastUsed := "t0" }

/-- One-event lifecycle: learn a solution for `step0`. -/
def events1 : List KBEvent := [KBEvent.learn step0 "button" ctx0 "t0"]

/-- Persisted solutions file with an old `lastUpdated` stamp. -/
def fOld : SolutionsFile :=
  { version := "1.0", lastUpdated := "2020-01-01T00:00:00.000Z", solutions := [sol78] }

/-- Flow-file defaults carrying a usable test-data value for `email`. -/
def q6 : QAContextFlows :=
  { testData := [("email", "test@example.com")], testCredentials := [] }

/-- Flow-file defaults whose `email` default exists but is the empty string. -/
def qEmpty : QAContextFlows :=
  { testData := [("email", "")], testCredentials := [] }

/-- Concrete token sequence for the substitution witness. -/
def toks0 : List Tok := [Tok.lit 'a', Tok.brace "email", Tok.dollar "pw"]

/-- Concrete parameter map for the substitution witness. -/
def p0 : String → Option String := fun _ => some "X"

/-- Persisted solutions file with no solutions and an old timestamp. -/
def fEmpty : SolutionsFile :=
  { version := "1.0", lastUpdated := "2020-01-01T00:00:00.000Z", solutions := [] }

/-! ## Helper lemmas about the association-list map -/

theorem mem_mapSet {α : Type} {k : String} {v : α} {m : List (String × α)}
    {p : String × α} (h : p ∈ mapSet k v m) : p = (k, v) ∨ p ∈ m := by
  induction m with
  | nil =>
    simp only [mapSet, List.mem_singleton] at h
    exact Or.inl h
  | cons q t ih =>
    obtain ⟨k', v'⟩ := q
    simp only [mapSet] at h
    by_cases hk : k' = k
    · rw [if_pos hk] at h
      rcases List.mem_cons.mp h with h | h
      · exact Or.inl h
      · exact Or.inr (List.mem_cons_of_mem _ h)
    · rw [if_neg hk] at h
      rcases List.mem_cons.mp h with h | h
      · exact Or.inr (h ▸ List.mem_cons_self _ _)
      · rcases ih h with h | h
        · exact Or.inl h
        · exact Or.inr (List.mem_cons_of_mem _ h)

theorem mapGet_mem {α : Type} {k : String} {m : List (String × α)} {v : α}
    (h : mapGet k m = some v) : (k, v) ∈ m := by
  induction m with
  | nil => simp [mapGet] at h
  | cons q t ih =>
    obtain ⟨k', v'⟩ := q
    by_cases hk : k' = k
    · subst hk
      rw [mapGet, if_pos rfl] at h
      obtain rfl : v' = v := by simpa using h
      exact List.mem_cons_self _ _
    · rw [mapGet, if_neg hk] at h
      exact List.mem_cons_of_mem _ (ih h)

theorem mapGet_mapSet_self {α : Type} (k : String) (v : α) (m : List (String × α)) :
    mapGet k (mapSet k v m) = some v := by
  induction m with
  | nil => simp [mapSet, mapGet]
  | cons q t ih =>
    obtain ⟨k', v'⟩ := q
    by_cases hk : k' = k
    · simp [mapSet, hk, mapGet]
    · rw [mapSet, if_neg hk, mapGet, if_neg hk]
      exact ih

theorem mapGet_mapSet_ne {α : Type} {p k : String} (v : α) (m : List (String × α))
    (h : p ≠ k) : mapGet p (mapSet k v m) = mapGet p m := by
  have hkp : k ≠ p := fun hh => h hh.symm
  induction m with
  | nil => simp [mapSet, mapGet, hkp]
  | cons q t ih =>
    obtain ⟨k', v'⟩ := q
    by_cases hk : k' = k
    · subst hk
      rw [mapSet, if_pos rfl, mapGet, if_neg hkp, mapGet, if_neg hkp]
    · rw [mapSet, if_neg hk, mapGet, mapGet]
      by_cases hp : k' = p
      · rw [if_pos hp, if_pos hp]
      · rw [if_neg hp, if_neg hp]
        exact ih

theorem mapSet_fresh {α : Type} {k : String} (v : α) {m : List (String × α)}
    (h : ∀ q ∈ m, q.1 ≠ k) : mapSet k v m = m ++ [(k, v)] := by
  induction m with
  | nil => simp [mapSet]
  | cons q t ih =>
    obtain ⟨k', v'⟩ := q
    have hk : k' ≠ k := h (k', v') (List.mem_cons_self _ _)
    simp only [mapSet, if_neg hk, List.cons_append, List.cons.injEq, true_and]
    exact ih (fun q hq => h q (List.mem_cons_of_mem _ hq))

theorem mapGet_of_mem_nodup {α : Type} {k : String} {v : α} {m : List (String × α)}
    (hnd : (m.map Prod.fst).Nodup) (hm : (k, v) ∈ m) : mapGet k m = some v := by
  induction m with
  | nil => simp at hm
  | cons q t ih =>
    obtain ⟨k', v'⟩ := q
    rcases List.mem_cons.mp hm with h | h
    · obtain ⟨h1, h2⟩ := Prod.mk.injEq .. ▸ h.symm
      rw [mapGet, if_pos h1, h2]
    · have hk : k' ≠ k := by
        intro he
        subst he
        have hmem : k' ∈ t.map Prod.fst := List.mem_map.mpr ⟨(k', v), h, rfl⟩
        exact (List.nodup_cons.mp (by simpa using hnd)).1 hmem
      rw [mapGet, if_neg hk]
      exact ih (List.nodup_cons.mp (by simpa using hnd)).2 h

theorem mem_mapDelete {α : Type} {k : String} {m : List (String × α)}
    {p : String × α} (h : p ∈ mapDelete k m) : p ∈ m :=
  List.mem_of_mem_filter h

/-! ## C1: confidence bounds across the knowledge-base lifecycle -/

theorem kbBounds_applyEvent (hash : String → String) (kb : KB) (e : KBEvent)
    (h : ∀ p ∈ kb, (2 : ℚ)/5 ≤ p.2.confidence ∧ p.2.confidence ≤ 99/100) :
    ∀ p ∈ applyEvent hash kb e, (2 : ℚ)/5 ≤ p.2.confidence ∧ p.2.confidence ≤ 99/100 := by
  intro p hp
  cases e with
  | learn step selector context now =>
    simp only [applyEvent, recordSolution] at hp
    rcases mem_mapSet hp with he | he
    · subst he; constructor <;> norm_num
    · exact h p he
  | succeed id now =>
    cases hGet : mapGet id kb with
    | none =>
      simp only [applyEvent, recordSuccess, hGet] at hp
      exact h p hp
    | some s =>
      simp only [applyEvent, recordSuccess, hGet] at hp
      have hs := h (id, s) (mapGet_mem hGet)
      rcases mem_mapSet hp with he | he
      · subst he
        constructor
        · show (2 : ℚ)/5 ≤ min ((99 : ℚ)/100) (s.confidence + 1/50)
          exact le_min (by norm_num) (by linarith [hs.1])
        · show min ((99 : ℚ)/100) (s.confidence + 1/50) ≤ (99 : ℚ)/100
          exact min_le_left _ _
      · exact h p he
  | fail id =>
    cases hGet : mapGet id kb with
    | none =>
      simp only [applyEvent, recordFailure, hGet] at hp
      exact h p hp
    | some s =>
      simp only [applyEvent, recordFailure, hGet] at hp
      have hs := h (id, s) (mapGet_mem hGet)
      by_cases hc : max ((3 : ℚ)/10) (s.confidence - 1/10) < (2 : ℚ)/5
      · rw [if_pos hc] at hp
        exact h p (mem_mapDelete hp)
      · rw [if_neg hc] at hp
        rcases mem_mapSet hp with he | he
        · subst he
          constructor
          · show (2 : ℚ)/5 ≤ max ((3 : ℚ)/10) (s.confidence - 1/10)
            exact le_of_not_lt hc
          · show max ((3 : ℚ)/10) (s.confidence - 1/10) ≤ (99 : ℚ)/100
            exact max_le (by norm_num) (by linarith [hs.2])
        · exact h p he

theorem kbBounds_applyEvents (hash : String → String) (events : List KBEvent) :
    ∀ (kb : KB), (∀ p ∈ kb, (2 : ℚ)/5 ≤ p.2.confidence ∧ p.2.confidence ≤ 99/100) →
    ∀ p ∈ applyEvents hash events kb,
      (2 : ℚ)/5 ≤ p.2.confidence ∧ p.2.confidence ≤ 99/100 := by
  induction events with
  | nil => intro kb hkb; simpa [applyEvents] using hkb
  | cons e es ih =>
    intro kb hkb
    have : applyEvents hash (e :: es) kb = applyEvents hash es (applyEvent hash kb e) := by
      simp [applyEvents]
    rw [this]
    exact ih _ (kbBounds_applyEvent hash kb e hkb)

/-- Claim C1: every solution reachable in the knowledge base through its
lifecycle (creation by `recordSolution`, updates by `recordSuccess` and
`recordFailure`, starting from the empty base) has confidence within
[0.3, 0.99]; moreover no retained entry ever sits below 0.4, because a
failure update that would cross below 0.4 deletes the entry instead. -/
theorem confidence_lifecycle_invariant (hash : String → String)
    (events : List KBEvent) (k : String) (s : Solution)
    (h : mapGet k (applyEvents hash events []) = some s) :
    (3 : ℚ)/10 ≤ s.confidence ∧ s.confidence ≤ 99/100 ∧ (2 : ℚ)/5 ≤ s.confidence := by
  have hm := mapGet_mem h
  have hb := kbBounds_applyEvents hash events [] (by simp) (k, s) hm
  exact ⟨by linarith [hb.1], hb.2, hb.1⟩

/-- Witness for C1 at a concrete one-event lifecycle. -/
theorem confidence_lifecycle_invariant_case :
    (3 : ℚ)/10 ≤ sol1.confidence ∧ sol1.confidence ≤ 99/100 ∧ (2 : ℚ)/5 ≤ sol1.confidence :=
  confidence_lifecycle_invariant hash0 events1 "click-00000000" sol1 rfl

/-! ## C2 and C10: learned-tier lookup and failure updates -/

theorem scanSimilar_isSome (step : Step) (context : ExecutionContext) (kb : KB) :
    (scanSimilar step context kb).isSome = true ↔
      ∃ p ∈ kb, p.2.stepAction = step.action
        ∧ p.2.pageContext.pageType = context.pageType
        ∧ (3 : ℚ)/4 < p.2.confidence := by
  simp [scanSimilar, List.find?_isSome, Bool.and_eq_true, beq_iff_eq,
    decide_eq_true_eq, and_assoc]

theorem scanSimilar_some {step : Step} {context : ExecutionContext} {kb : KB}
    {sol : Solution} (h : scanSimilar step context kb = some sol) :
    (3 : ℚ)/4 < sol.confidence ∧ sol.stepAction = step.action
      ∧ sol.pageContext.pageType = context.pageType ∧ ∃ k, (k, sol) ∈ kb := by
  simp only [scanSimilar, Option.map_eq_some'] at h
  obtain ⟨p, hfind, hp2⟩ := h
  have hpred := List.find?_some hfind
  have hmem := List.mem_of_find?_eq_some hfind
  simp only [Bool.and_eq_true, beq_iff_eq, decide_eq_true_eq] at hpred
  obtain ⟨⟨ha, hb⟩, hc⟩ := hpred
  subst hp2
  exact ⟨hc, ha, hb, p.1, by simpa using hmem⟩

/-- Claim C2: for every step, context and knowledge base, the learned-tier
lookup returns a solution exactly when the exact key derived from the action
and the hash of the original selector maps to an entry with confidence
strictly above 0.8, or some entry shares the step action and the context page
type with confidence strictly above 0.75; and every returned solution has
confidence strictly above 0.75 — in particular an entry with confidence
exactly 0.75 is never returned through the fallback path. -/
theorem findLearnedSolution_match_characterization (hash : String → String)
    (step : Step) (context : ExecutionContext) (kb : KB) :
    ((findLearnedSolution hash step context kb).isSome = true ↔
      ((∃ s, mapGet (generateKey hash step) kb = some s ∧ (4 : ℚ)/5 < s.confidence)
        ∨ (∃ p ∈ kb, p.2.stepAction = step.action
            ∧ p.2.pageContext.pageType = context.pageType
            ∧ (3 : ℚ)/4 < p.2.confidence)))
    ∧ (∀ sol, findLearnedSolution hash step context kb = some sol →
        (3 : ℚ)/4 < sol.confidence) := by
  constructor
  · constructor
    · intro hIsSome
      obtain ⟨sol, hfind⟩ := Option.isSome_iff_exists.mp hIsSome
      cases hGet : mapGet (generateKey hash step) kb with
      | none =>
        simp only [findLearnedSolution, hGet] at hfind
        obtain ⟨hc, ha, hb, k, hk⟩ := scanSimilar_some hfind
        exact Or.inr ⟨(k, sol), hk, ha, hb, hc⟩
      | some e =>
        by_cases he : (4 : ℚ)/5 < e.confidence
        · exact Or.inl ⟨e, rfl, he⟩
        · simp only [findLearnedSolution, hGet, if_neg he] at hfind
          obtain ⟨hc, ha, hb, k, hk⟩ := scanSimilar_some hfind
          exact Or.inr ⟨(k, sol), hk, ha, hb, hc⟩
    · rintro (⟨s, hs, hc⟩ | ⟨p, hp, h1, h2, h3⟩)
      · simp only [findLearnedSolution, hs, if_pos hc, Option.isSome_some]
      · have hscan : (scanSimilar step context kb).isSome = true :=
          (scanSimilar_isSome step context kb).mpr ⟨p, hp, h1, h2, h3⟩
        cases hGet : mapGet (generateKey hash step) kb with
        | none => simpa only [findLearnedSolution, hGet] using hscan
        | some e =>
          by_cases he : (4 : ℚ)/5 < e.confidence
          · simp only [findLearnedSolution, hGet, if_pos he, Option.isSome_some]
          · simpa only [findLearnedSolution, hGet, if_neg he] using hscan
  · intro sol hsol
    cases hGet : mapGet (generateKey hash step) kb with
    | none =>
      simp only [findLearnedSolution, hGet] at hsol
      exact (scanSimilar_some hsol).1
    | some e =>
      by_cases he : (4 : ℚ)/5 < e.confidence
      · simp only [findLearnedSolution, hGet, if_pos he] at hsol
        obtain rfl : e = sol := by simpa using hsol
        linarith
      · simp only [findLearnedSolution, hGet, if_neg he] at hsol
        exact (scanSimilar_some hsol).1

theorem generateKey_step0 : generateKey hash0 step0 = "click-00000000" := rfl

theorem findLearnedSolution_kb78 :
    findLearnedSolution hash0 step0 ctx0 kb78 = some sol78 := by
  have h1 : mapGet (generateKey hash0 step0) kb78 = some sol78 := rfl
  have hlt : ¬ (4 : ℚ)/5 < sol78.confidence := by norm_num [sol78]
  simp only [findLearnedSolution, h1, if_neg hlt]
  norm_num [scanSimilar, kb78, sol78, step0, ctx0]

/-- Witness for C2 at a concrete knowledge base with one 0.78-confidence
entry returned through the fallback path. -/
theorem findLearnedSolution_match_case :
    findLearnedSolution hash0 step0 ctx0 kb78 = some sol78
      ∧ (3 : ℚ)/4 < sol78.confidence :=
  ⟨findLearnedSolution_kb78,
   (findLearnedSolution_match_characterization hash0 step0 ctx0 kb78).2 sol78
     findLearnedSolution_kb78⟩

/-- Claim C10: a solution returned by the learned-tier lookup has confidence
above 0.75, so the immediately following failure update leaves it in the
knowledge base: its confidence drops by exactly 0.1, stays above 0.65, and
the sub-0.4 deletion branch of `recordFailure` is never taken on a
resolver-selected entry. -/
theorem resolver_failure_never_deletes (hash : String → String) (step : Step)
    (context : ExecutionContext) (kb : KB) (sol : Solution)
    (hkeys : ∀ p ∈ kb, p.1 = p.2.id)
    (hnodup : (kb.map Prod.fst).Nodup)
    (hfind : findLearnedSolution hash step context kb = some sol) :
    (3 : ℚ)/4 < sol.confidence
    ∧ mapGet sol.id (recordFailure sol.id kb)
        = some { sol with failureCount := sol.failureCount + 1,
                          confidence := sol.confidence - 1/10 }
    ∧ (13 : ℚ)/20 < sol.confidence - 1/10 := by
  have hmain : (3 : ℚ)/4 < sol.confidence ∧ mapGet sol.id kb = some sol := by
    cases hGet : mapGet (generateKey hash step) kb with
    | none =>
      simp only [findLearnedSolution, hGet] at hfind
      obtain ⟨hc, _, _, k, hk⟩ := scanSimilar_some hfind
      have hid : k = sol.id := hkeys (k, sol) hk
      exact ⟨hc, mapGet_of_mem_nodup hnodup (hid ▸ hk)⟩
    | some e =>
      by_cases he : (4 : ℚ)/5 < e.confidence
      · simp only [findLearnedSolution, hGet, if_pos he] at hfind
        obtain rfl : e = sol := by simpa using hfind
        have hmem := mapGet_mem hGet
        have hid := hkeys _ hmem
        simp only at hid
        refine ⟨by linarith, mapGet_of_mem_nodup hnodup (hid ▸ hmem)⟩
      · simp only [findLearnedSolution, hGet, if_neg he] at hfind
        obtain ⟨hc, _, _, k, hk⟩ := scanSimilar_some hfind
        have hid : k = sol.id := hkeys (k, sol) hk
        exact ⟨hc, mapGet_of_mem_nodup hnodup (hid ▸ hk)⟩
  obtain ⟨hconf, hid⟩ := hmain
  have hmax : max ((3 : ℚ)/10) (sol.confidence - 1/10) = sol.confidence - 1/10 :=
    max_eq_right (by linarith)
  have hnl : ¬ (sol.confidence - 1/10 < (2 : ℚ)/5) := by intro hh; linarith
  refine ⟨hconf, ?_, by linarith⟩
  simp only [recordFailure, hid, hmax, if_neg hnl]
  exact mapGet_mapSet_self _ _ _

/-- Witness for C10 at the concrete 0.78-confidence entry. -/
theorem resolver_failure_never_deletes_case :
    (3 : ℚ)/4 < sol78.confidence
    ∧ mapGet sol78.id (recordFailure sol78.id kb78)
        = some { sol78 with failureCount := sol78.failureCount + 1,
                            confidence := sol78.confidence - 1/10 }
    ∧ (13 : ℚ)/20 < sol78.confidence - 1/10 :=
  resolver_failure_never_deletes hash0 step0 ctx0 kb78 sol78
    (by decide) (by decide) findLearnedSolution_kb78

/-! ## C9: persistence round trip -/

theorem foldl_mapSet_fresh (sols : List Solution) :
    ∀ (acc : List (String × Solution)),
      (∀ s ∈ sols, ∀ q ∈ acc, q.1 ≠ s.id) →
      (sols.map Solution.id).Nodup →
      sols.foldl (fun m s => mapSet s.id s m) acc
        = acc ++ sols.map (fun s => (s.id, s)) := by
  induction sols with
  | nil => intro acc _ _; simp
  | cons s rest ih =>
    intro acc hfresh hnd
    simp only [List.foldl_cons]
    rw [mapSet_fresh s (hfresh s (List.mem_cons_self _ _))]
    have hnd' : (∀ x ∈ rest, ¬ x.id = s.id) ∧ (rest.map Solution.id).Nodup := by
      simpa using hnd
    rw [ih (acc ++ [(s.id, s)]) ?_ hnd'.2]
    · simp
    · intro t ht q hq
      rcases List.mem_append.mp hq with hq | hq
      · exact hfresh t (List.mem_cons_of_mem _ ht) q hq
      · obtain rfl : q = (s.id, s) := by simpa using hq
        intro he
        exact hnd'.1 t ht he.symm

theorem loadKnowledgeBase_nodup (f : SolutionsFile)
    (h : (f.solutions.map Solution.id).Nodup) :
    loadKnowledgeBase f = f.solutions.map (fun s => (s.id, s)) := by
  unfold loadKnowledgeBase
  simpa using foldl_mapSet_fresh f.solutions [] (by simp) h

/-- Counterexample to C9 as stated: loading a persisted file and saving the
result immediately is not byte-for-byte the identity — the top-level
`lastUpdated` field is rewritten to the save time (and `version` is forced to
"1.0"), so the round-tripped file differs from the original. -/
theorem save_load_roundtrip_counterexample :
    saveKnowledgeBase "2025-01-01T00:00:00.000Z" (loadKnowledgeBase fEmpty) ≠ fEmpty
    ∧ (saveKnowledgeBase "2025-01-01T00:00:00.000Z" (loadKnowledgeBase fEmpty)).lastUpdated
        ≠ fEmpty.lastUpdated := by
  decide

/-- Claim C9 (amended): one load/save round trip with no intervening mutation
preserves the solutions array exactly — every field of every solution, in
order — provided solution ids are distinct (duplicate ids collapse in the
id-keyed map); the top-level `version` is rewritten to "1.0" and
`lastUpdated` to the save time, so the file as a whole is not byte-for-byte
identical. -/
theorem save_load_preserves_solutions (f : SolutionsFile) (now : String)
    (h : (f.solutions.map Solution.id).Nodup) :
    (saveKnowledgeBase now (loadKnowledgeBase f)).solutions = f.solutions
    ∧ (saveKnowledgeBase now (loadKnowledgeBase f)).version = "1.0"
    ∧ (saveKnowledgeBase now (loadKnowledgeBase f)).lastUpdated = now := by
  refine ⟨?_, rfl, rfl⟩
  show (loadKnowledgeBase f).map (fun p => p.2) = f.solutions
  rw [loadKnowledgeBase_nodup f h, List.map_map]
  have hcomp : ((fun p : String × Solution => p.2) ∘ fun s : Solution => (s.id, s)) = id := rfl
  rw [hcomp, List.map_id]

/-- Witness for the amended C9 at a concrete one-solution file. -/
theorem save_load_preserves_solutions_case :
    (saveKnowledgeBase "2025-01-01T00:00:00.000Z" (loadKnowledgeBase fOld)).solutions
        = fOld.solutions
    ∧ (saveKnowledgeBase "2025-01-01T00:00:00.000Z" (loadKnowledgeBase fOld)).version = "1.0"
    ∧ (saveKnowledgeBase "2025-01-01T00:00:00.000Z" (loadKnowledgeBase fOld)).lastUpdated
        = "2025-01-01T00:00:00.000Z" :=
  save_load_preserves_solutions fOld "2025-01-01T00:00:00.000Z" (by decide)

/-! ## C3, C4, C5: the resolver's tier discipline -/

/-- Claim C3: for every non-navigate, non-screenshot step the resolver
attempts the tiers in the strict order Deterministic, Learned, AI (the
attempt sequence is a sublist of that canonical order, so no tier runs
twice), short-circuits on the first success (every non-final attempt in the
trace failed, and the step succeeds exactly when some attempt succeeded), and
the AI tier is attempted only when an AI client is configured and both the
deterministic attempt and the learned tier have failed to produce a success. -/
theorem stepHybrid_tier_order (env : HybridEnv) (config : RunConfig)
    (context : ExecutionContext) (step : Step) (kb : KB)
    (h1 : step.action ≠ "navigate") (h2 : step.action ≠ "screenshot") :
    ((executeStepHybrid env config context step kb).trace.map Prod.fst).Sublist
        [Tier.deterministic, Tier.learned, Tier.ai]
    ∧ (∀ p ∈ (executeStepHybrid env config context step kb).trace.dropLast, p.2 = false)
    ∧ ((executeStepHybrid env config context step kb).result = Except.ok ()
        ↔ ∃ t, (t, true) ∈ (executeStepHybrid env config context step kb).trace)
    ∧ (∀ b : Bool, (Tier.ai, b) ∈ (executeStepHybrid env config context step kb).trace →
        env.aiClient = true
        ∧ (Tier.deterministic, false) ∈ (executeStepHybrid env config context step kb).trace
        ∧ (Tier.deterministic, true) ∉ (executeStepHybrid env config context step kb).trace
        ∧ (Tier.learned, true) ∉ (executeStepHybrid env config context step kb).trace) := by
  unfold executeStepHybrid
  rw [if_neg h1, if_neg h2]
  split
  · refine ⟨by dsimp only; decide, by simp, by simp, by simp⟩
  · split
    · split
      · refine ⟨by dsimp only; decide, by simp, by simp, by simp⟩
      · unfold aiPhase
        split
        next hai =>
          split
          · split
            · exact ⟨by dsimp only; decide, by simp, by simp,
                fun b hb => ⟨hai.1, by simp, by simp, by simp⟩⟩
            · exact ⟨by dsimp only; decide, by simp, by simp,
                fun b hb => ⟨hai.1, by simp, by simp, by simp⟩⟩
          · exact ⟨by dsimp only; decide, by simp, by simp,
              fun b hb => ⟨hai.1, by simp, by simp, by simp⟩⟩
        next hai =>
          exact ⟨by dsimp only; decide, by simp, by simp, by simp⟩
    · unfold aiPhase
      split
      next hai =>
        split
        · split
          · exact ⟨by dsimp only; decide, by simp, by simp,
              fun b hb => ⟨hai.1, by simp, by simp, by simp⟩⟩
          · exact ⟨by dsimp only; decide, by simp, by simp,
              fun b hb => ⟨hai.1, by simp, by simp, by simp⟩⟩
        · exact ⟨by dsimp only; decide, by simp, by simp,
            fun b hb => ⟨hai.1, by simp, by simp, by simp⟩⟩
      next hai =>
        exact ⟨by dsimp only; decide, by simp, by simp, by simp⟩

/-- Witness for C3 at the concrete single-click scenario. -/
theorem stepHybrid_tier_order_case :
    ((executeStepHybrid env0 config0 ctx0 step0 []).trace.map Prod.fst).Sublist
        [Tier.deterministic, Tier.learned, Tier.ai]
    ∧ (∀ p ∈ (executeStepHybrid env0 config0 ctx0 step0 []).trace.dropLast, p.2 = false)
    ∧ ((executeStepHybrid env0 config0 ctx0 step0 []).result = Except.ok ()
        ↔ ∃ t, (t, true) ∈ (executeStepHybrid env0 config0 ctx0 step0 []).trace)
    ∧ (∀ b : Bool, (Tier.ai, b) ∈ (executeStepHybrid env0 config0 ctx0 step0 []).trace →
        env0.aiClient = true
        ∧ (Tier.deterministic, false) ∈ (executeStepHybrid env0 config0 ctx0 step0 []).trace
        ∧ (Tier.deterministic, true) ∉ (executeStepHybrid env0 config0 ctx0 step0 []).trace
        ∧ (Tier.learned, true) ∉ (executeStepHybrid env0 config0 ctx0 step0 []).trace) :=
  stepHybrid_tier_order env0 config0 ctx0 step0 [] (by decide) (by decide)

theorem mem_aiPhase_trace {env : HybridEnv} {config : RunConfig} {step : Step}
    {context : ExecutionContext} {kb : KB} {tr : List (Tier × Bool)} {p : Tier × Bool}
    (h : p ∈ (aiPhase env config step context kb tr).trace) :
    p ∈ tr ∨ ∃ b, p = (Tier.ai, b) := by
  unfold aiPhase at h
  split at h
  · split at h
    · split at h
      · rcases List.mem_append.mp h with h | h
        · exact Or.inl h
        · exact Or.inr ⟨true, by simpa using h⟩
      · rcases List.mem_append.mp h with h | h
        · exact Or.inl h
        · exact Or.inr ⟨false, by simpa using h⟩
    · rcases List.mem_append.mp h with h | h
      · exact Or.inl h
      · exact Or.inr ⟨false, by simpa using h⟩
  · exact Or.inl h

/-- Claim C4: whenever the deterministic attempt of a step succeeds, the
knowledge base is left completely untouched — the returned base is the input
base, no learned-solution lookup was performed, and the step reports
success. -/
theorem deterministic_success_kb_untouched (env : HybridEnv) (config : RunConfig)
    (context : ExecutionContext) (step : Step) (kb : KB)
    (hdet : (Tier.deterministic, true) ∈ (executeStepHybrid env config context step kb).trace) :
    (executeStepHybrid env config context step kb).kb = kb
    ∧ (executeStepHybrid env config context step kb).kbConsulted = false
    ∧ (executeStepHybrid env config context step kb).result = Except.ok () := by
  by_cases h1 : step.action = "navigate"
  · exfalso
    unfold executeStepHybrid at hdet
    rw [if_pos h1] at hdet
    by_cases hnav : env.navDriver (fullUrlOf config step) = true
    · rw [if_pos hnav] at hdet; simp at hdet
    · rw [if_neg hnav] at hdet; simp at hdet
  by_cases h2 : step.action = "screenshot"
  · exfalso
    unfold executeStepHybrid at hdet
    rw [if_neg h1, if_pos h2] at hdet
    simp at hdet
  by_cases hdrv : env.driver step.action (selectorOf config step) = true
  · unfold executeStepHybrid
    rw [if_neg h1, if_neg h2, if_pos hdrv]
    exact ⟨rfl, rfl, rfl⟩
  · exfalso
    unfold executeStepHybrid at hdet
    rw [if_neg h1, if_neg h2, if_neg hdrv] at hdet
    cases hfind : findLearnedSolution env.hash step context kb with
    | some sol =>
      simp only [hfind] at hdet
      by_cases hl : env.driver step.action sol.learnedSelector = true
      · rw [if_pos hl] at hdet
        simp at hdet
      · rw [if_neg hl] at hdet
        rcases mem_aiPhase_trace hdet with h | ⟨b, hb⟩
        · simp at h
        · simp at hb
    | none =>
      simp only [hfind] at hdet
      rcases mem_aiPhase_trace hdet with h | ⟨b, hb⟩
      · simp at h
      · simp at hb

/-- Witness for C4: with a driver that honors the original selector, the
step succeeds deterministically and the knowledge base is untouched. -/
theorem deterministic_success_kb_untouched_case :
    (executeStepHybrid envDet config0 ctx0 step0 kb78).kb = kb78
    ∧ (executeStepHybrid envDet config0 ctx0 step0 kb78).kbConsulted = false
    ∧ (executeStepHybrid envDet config0 ctx0 step0 kb78).result = Except.ok () :=
  deterministic_success_kb_untouched envDet config0 ctx0 step0 kb78 (by decide)

/-- Counterexample to C5 as stated: in the concrete scenario the raised
message is the source's "All execution methods failed for step: click", not
"all strategies failed". -/
theorem all_tiers_fail_message_counterexample :
    (executeFlow env0 config0 "prompt.test" [step0] []).error
        = some "All execution methods failed for step: click"
    ∧ (executeFlow env0 config0 "prompt.test" [step0] []).error
        ≠ some "all strategies failed" := by
  decide

/-- Claim C5 (amended): for a flow of one click step on a selector that
matches nothing, with an empty knowledge base and no AI oracle configured,
the deterministic tier fails, the learned tier finds no solution, the AI tier
is not attempted, the step error carries the source's message "All execution
methods failed for step: click", and the flow fails with exactly one step
executed and the knowledge base unchanged. -/
theorem all_tiers_fail_behavior :
    (executeFlow env0 config0 "prompt.test" [step0] []).status = "failed"
    ∧ (executeFlow env0 config0 "prompt.test" [step0] []).error
        = some "All execution methods failed for step: click"
    ∧ (executeFlow env0 config0 "prompt.test" [step0] []).stepsAttempted = 1
    ∧ (executeFlow env0 config0 "prompt.test" [step0] []).kb = []
    ∧ (executeStepHybrid env0 config0 ctx0 step0 []).trace = [(Tier.deterministic, false)]
    ∧ findLearnedSolution env0.hash step0 ctx0 [] = none := by
  decide

/-! ## C6: required-parameter validation before the step loop -/

theorem mapGet_fold_fill (q : QAContextFlows) (ms : List String) :
    ∀ (acc : List (String × String)) (p : String),
      mapGet p (ms.foldl (fun fp m =>
        match defaultsLookup q m with
        | some v => if v = "" then fp else mapSet m v fp
        | none => fp) acc)
      = if p ∈ ms ∧ (truthyDefault q p).isSome then truthyDefault q p
        else mapGet p acc := by
  induction ms with
  | nil => intro acc p; simp
  | cons m rest ih =>
    intro acc p
    simp only [List.foldl_cons]
    rw [ih]
    by_cases hpm : p = m
    · subst hpm
      cases htd : truthyDefault q p with
      | some v =>
        obtain ⟨hd, hw⟩ : defaultsLookup q p = some v ∧ v ≠ "" := by
          unfold truthyDefault at htd
          cases hd : defaultsLookup q p with
          | none => simp [hd] at htd
          | some w =>
            simp only [hd] at htd
            by_cases hw : w = ""
            · rw [if_pos hw] at htd; exact absurd htd (by simp)
            · rw [if_neg hw] at htd
              obtain rfl : w = v := by simpa using htd
              exact ⟨rfl, hw⟩
        simp only [hd, if_neg hw]
        rw [mapGet_mapSet_self]
        by_cases hpr : p ∈ rest
        · simp [hpr, htd]
        · simp [hpr, htd]
      | none =>
        have hstep : (match defaultsLookup q p with
            | some v => if v = "" then acc else mapSet p v acc
            | none => acc) = acc := by
          unfold truthyDefault at htd
          cases hd : defaultsLookup q p with
          | none => simp [hd]
          | some w =>
            simp only [hd] at htd
            by_cases hw : w = ""
            · simp [hd, hw]
            · rw [if_neg hw] at htd; exact absurd htd (by simp)
        rw [hstep]
        simp [htd]
    · have hstep : mapGet p (match defaultsLookup q m with
          | some v => if v = "" then acc else mapSet m v acc
          | none => acc) = mapGet p acc := by
        cases hd : defaultsLookup q m with
        | none => simp
        | some w =>
          by_cases hw : w = ""
          · simp [hw]
          · simp only [if_neg hw]
            exact mapGet_mapSet_ne w acc hpm
      rw [hstep]
      simp [List.mem_cons, hpm]

theorem mapGet_fillDefaults (required : List String) (supplied : List (String × String))
    (q : QAContextFlows) (p : String) :
    mapGet p (fillDefaults required supplied q)
      = if mapGet p supplied = none ∧ p ∈ required ∧ (truthyDefault q p).isSome
        then truthyDefault q p else mapGet p supplied := by
  unfold fillDefaults
  rw [mapGet_fold_fill]
  by_cases hc : mapGet p supplied = none ∧ p ∈ required ∧ (truthyDefault q p).isSome
  · have hfilter : p ∈ required.filter (fun x => (mapGet x supplied).isNone)
        ∧ (truthyDefault q p).isSome :=
      ⟨List.mem_filter.mpr ⟨hc.2.1, by simp [hc.1]⟩, hc.2.2⟩
    rw [if_pos hfilter, if_pos hc]
  · have hfilter : ¬ (p ∈ required.filter (fun x => (mapGet x supplied).isNone)
        ∧ (truthyDefault q p).isSome) := by
      rintro ⟨hf, hs⟩
      have hm := List.mem_filter.mp hf
      exact hc ⟨by simpa using hm.2, hm.1, hs⟩
    rw [if_neg hfilter, if_neg hc]

theorem validateFlowParams_error_iff (required : List String)
    (supplied : List (String × String)) (q : QAContextFlows) :
    (∃ m, validateFlowParams required supplied q = Except.error m) ↔
      ∃ p ∈ required, mapGet p supplied = none ∧ truthyDefault q p = none := by
  unfold validateFlowParams
  by_cases hm : (required.filter (fun p => (mapGet p supplied).isNone)).isEmpty = true
  · rw [if_pos hm]
    constructor
    · rintro ⟨m, hmm⟩; exact absurd hmm (by simp)
    · rintro ⟨p, hp, hnone, _⟩
      exfalso
      have hmem : p ∈ required.filter (fun x => (mapGet x supplied).isNone) :=
        List.mem_filter.mpr ⟨hp, by simp [hnone]⟩
      rw [List.isEmpty_iff] at hm
      rw [hm] at hmem
      simp at hmem
  · rw [if_neg hm]
    by_cases hs : (required.filter
        (fun p => (mapGet p (fillDefaults required supplied q)).isNone)).isEmpty = true
    · rw [if_pos hs]
      constructor
      · rintro ⟨m, hmm⟩; exact absurd hmm (by simp)
      · rintro ⟨p, hp, hnone, htd⟩
        exfalso
        have hfill : mapGet p (fillDefaults required supplied q) = none := by
          rw [mapGet_fillDefaults, if_neg]
          · exact hnone
          · rintro ⟨_, _, hsome⟩; rw [htd] at hsome; simp at hsome
        have hmem : p ∈ required.filter
            (fun x => (mapGet x (fillDefaults required supplied q)).isNone) :=
          List.mem_filter.mpr ⟨hp, by simp [hfill]⟩
        rw [List.isEmpty_iff] at hs
        rw [hs] at hmem
        simp at hmem
    · rw [if_neg hs]
      constructor
      · rintro ⟨m, _⟩
        have hne : required.filter
            (fun p => (mapGet p (fillDefaults required supplied q)).isNone) ≠ [] := by
          intro he; exact hs (by simp [he])
        obtain ⟨p, hp⟩ := List.exists_mem_of_ne_nil _ hne
        have hm2 := List.mem_filter.mp hp
        have hfill : mapGet p (fillDefaults required supplied q) = none := by
          simpa using hm2.2
        rw [mapGet_fillDefaults] at hfill
        by_cases hcond : mapGet p supplied = none ∧ p ∈ required
            ∧ (truthyDefault q p).isSome
        · rw [if_pos hcond] at hfill
          exact absurd (hfill ▸ hcond.2.2) (by simp)
        · rw [if_neg hcond] at hfill
          have htd : truthyDefault q p = none := by
            by_contra hne2
            exact hcond ⟨hfill, hm2.1, Option.ne_none_iff_isSome.mp hne2⟩
          exact ⟨p, hm2.1, hfill, htd⟩
      · intro _; exact ⟨_, rfl⟩

theorem validateFlowParams_ok (required : List String)
    (supplied : List (String × String)) (q : QAContextFlows)
    (fp : List (String × String))
    (h : validateFlowParams required supplied q = Except.ok fp) :
    ∀ p ∈ required, mapGet p fp
      = if (mapGet p supplied).isSome then mapGet p supplied
        else truthyDefault q p := by
  unfold validateFlowParams at h
  by_cases hm : (required.filter (fun p => (mapGet p supplied).isNone)).isEmpty = true
  · rw [if_pos hm] at h
    obtain rfl : supplied = fp := by simpa using h
    intro p hp
    have hns : ¬ (mapGet p supplied).isNone = true := by
      intro hnone
      have hmem : p ∈ required.filter (fun x => (mapGet x supplied).isNone) :=
        List.mem_filter.mpr ⟨hp, hnone⟩
      rw [List.isEmpty_iff] at hm
      rw [hm] at hmem
      simp at hmem
    have hsome : (mapGet p supplied).isSome := by
      cases hx : mapGet p supplied with
      | none => rw [hx] at hns; simp at hns
      | some w => simp
    rw [if_pos hsome]
  · rw [if_neg hm] at h
    by_cases hs : (required.filter
        (fun p => (mapGet p (fillDefaults required supplied q)).isNone)).isEmpty = true
    · rw [if_pos hs] at h
      obtain rfl : fillDefaults required supplied q = fp := by simpa using h
      intro p hp
      rw [mapGet_fillDefaults]
      by_cases hsup : (mapGet p supplied).isSome = true
      · rw [if_neg, if_pos hsup]
        rintro ⟨hnone, _, _⟩
        rw [hnone] at hsup
        simp at hsup
      · have hnone : mapGet p supplied = none :=
          Option.not_isSome_iff_eq_none.mp (by simpa using hsup)
        have hfillsome : ¬ (mapGet p (fillDefaults required supplied q)).isNone = true := by
          intro hn
          have hmem : p ∈ required.filter
              (fun x => (mapGet x (fillDefaults required supplied q)).isNone) :=
            List.mem_filter.mpr ⟨hp, hn⟩
          rw [List.isEmpty_iff] at hs
          rw [hs] at hmem
          simp at hmem
        have htd : (truthyDefault q p).isSome := by
          by_contra hni
          apply hfillsome
          rw [mapGet_fillDefaults, if_neg]
          · simp [hnone]
          · rintro ⟨_, _, hsome2⟩; exact hni hsome2
        rw [if_pos ⟨hnone, hp, htd⟩, if_neg hsup]
    · rw [if_neg hs] at h
      exact absurd h (by simp)

/-- Claim C6 (amended): required-parameter validation happens before any step
runs — the tool reports the missing-parameters error exactly when some
required parameter is neither supplied nor has a truthy (non-empty) default
in the spread of testData and testCredentials, in which case the step loop is
never reached; otherwise every required parameter is resolved, supplied
values taking precedence and missing ones coming from the defaults map. -/
theorem requiredParams_validated_before_steps (required : List String)
    (supplied : List (String × String)) (q : QAContextFlows) :
    ((executeFlowTool required supplied q).missingError.isSome = true ↔
      ∃ p ∈ required, mapGet p supplied = none ∧ truthyDefault q p = none)
    ∧ ((executeFlowTool required supplied q).missingError.isSome = true →
        (executeFlowTool required supplied q).stepLoopReached = false)
    ∧ ((executeFlowTool required supplied q).missingError = none →
        ∀ p ∈ required, mapGet p (executeFlowTool required supplied q).flowParams
          = if (mapGet p supplied).isSome then mapGet p supplied
            else truthyDefault q p) := by
  cases hval : validateFlowParams required supplied q with
  | error m =>
    have herr : executeFlowTool required supplied q
        = { missingError := some m, flowParams := fillDefaults required supplied q,
            stepLoopReached := false } := by
      unfold executeFlowTool; rw [hval]
    rw [herr]
    refine ⟨?_, fun _ => rfl, ?_⟩
    · refine ⟨fun _ => ?_, fun _ => by simp⟩
      exact (validateFlowParams_error_iff required supplied q).mp ⟨m, hval⟩
    · intro hcon; exact absurd hcon (by simp)
  | ok fp =>
    have hok : executeFlowTool required supplied q
        = { missingError := none, flowParams := fp, stepLoopReached := true } := by
      unfold executeFlowTool; rw [hval]
    rw [hok]
    refine ⟨?_, ?_, ?_⟩
    · refine ⟨fun hcon => absurd hcon (by simp), fun hrhs => ?_⟩
      obtain ⟨m, hmm⟩ := (validateFlowParams_error_iff required supplied q).mpr hrhs
      rw [hval] at hmm
      exact absurd hmm (by simp)
    · intro hcon; exact absurd hcon (by simp)
    · intro _ p hp
      exact validateFlowParams_ok required supplied q fp hval p hp

/-- Counterexample to C6 as stated: a default that exists but is the empty
string is not applied (the source's falsy check skips it), so the tool still
reports the missing-parameters error even though a default exists. -/
theorem empty_default_not_filled_counterexample :
    defaultsLookup qEmpty "email" = some ""
    ∧ (executeFlowTool ["email"] [] qEmpty).missingError = some ["email"]
    ∧ (executeFlowTool ["email"] [] qEmpty).stepLoopReached = false := by
  decide

/-- Witness for the amended C6: a missing `email` parameter with a usable
test-data default resolves from the default and execution proceeds. -/
theorem requiredParams_validated_case :
    (executeFlowTool ["email"] [] q6).missingError = none
    ∧ mapGet "email" (executeFlowTool ["email"] [] q6).flowParams
        = some "test@example.com" := by
  constructor
  · decide
  · have h := (requiredParams_validated_before_steps ["email"] [] q6).2.2
      (by decide) "email" (by decide)
    rw [h]
    decide

/-! ## C7: selector normalization -/

/-- Counterexample to C7 as stated: a bare contains pseudo-function with no
compound prefix is rewritten to a has-text pseudo-class with empty prefix,
not to a pure text-match selector — the global has-text rewrite at
src/unnamed/part_004:979 consumes every quoted contains before the bare-case
branch at lines 980-983 can see one, leaving its `text=` rewrite unreachable. -/
theorem bare_contains_counterexample :
    convertSelector ":contains(\x27x\x27)" = ":has-text(\"x\")"
    ∧ convertSelector ":contains(\x27x\x27)" ≠ "text=x" := by
  decide

/-- Claim C7 (amended): selector normalization is total; a selector with a
compound prefix such as button:contains(quoted Login) converts to
button:has-text("Login") in both the engine and the tool normalizer, while a
bare :contains(quoted x) with no compound prefix converts to :has-text("x")
— an empty-prefix has-text predicate — rather than to the text=x form named
by the spec. -/
theorem convertSelector_contains_behavior :
    convertSelector "button:contains(\x27Login\x27)" = "button:has-text(\"Login\")"
    ∧ convertSelector ":contains(\x27x\x27)" = ":has-text(\"x\")"
    ∧ convertSelectorTool "button:contains(\x27Login\x27)" = "button:has-text(\"Login\")"
    ∧ convertSelectorTool ":contains(\x27x\x27)" = ":has-text(\"x\")" := by
  decide

/-! ## C8: parameter substitution -/

theorem dollarTok_rest_length {look : String → Option String} {t out rest : List Char}
    (h : dollarTok look t = some (out, rest)) : rest.length < t.length := by
  cases t with
  | nil => simp [dollarTok] at h
  | cons c r =>
    simp only [dollarTok] at h
    split at h
    · split at h
      next c2 rest2 heq =>
        split at h
        · simp only [Option.some.injEq, Prod.mk.injEq] at h
          obtain ⟨-, rfl⟩ := h
          have hlen : rest2.length + 1 ≤ r.length := by
            have hsub := (List.dropWhile_sublist (l := r) isWordChar).length_le
            rw [heq] at hsub
            simpa using hsub
          simp only [List.length_cons]
          omega
        · simp at h
      next heq => simp at h
    · simp at h

theorem braceTok_rest_length {look : String → Option String} {r out rest : List Char}
    (h : braceTok look r = some (out, rest)) : rest.length < r.length + 1 := by
  simp only [braceTok] at h
  split at h
  next c2 rest2 heq =>
    split at h
    · simp only [Option.some.injEq, Prod.mk.injEq] at h
      obtain ⟨-, rfl⟩ := h
      have hlen : rest2.length + 1 ≤ r.length := by
        have hsub := (List.dropWhile_sublist (l := r) isWordChar).length_le
        rw [heq] at hsub
        simpa using hsub
      omega
    · simp at h
  next heq => simp at h

theorem dollarGo_fuel (look : String → Option String) :
    ∀ (f g : Nat) (l : List Char), l.length ≤ f → l.length ≤ g →
      dollarGo look f l = dollarGo look g l := by
  intro f
  induction f with
  | zero =>
    intro g l h1 _
    obtain rfl : l = [] := List.eq_nil_of_length_eq_zero (Nat.le_zero.mp h1)
    cases g <;> rfl
  | succ f ih =>
    intro g l h1 h2
    cases g with
    | zero =>
      obtain rfl : l = [] := List.eq_nil_of_length_eq_zero (Nat.le_zero.mp h2)
      rfl
    | succ g =>
      cases l with
      | nil => rfl
      | cons c t =>
        have h1' : t.length ≤ f := by simpa using Nat.le_of_succ_le_succ (by simpa using h1)
        have h2' : t.length ≤ g := by simpa using Nat.le_of_succ_le_succ (by simpa using h2)
        simp only [dollarGo]
        by_cases hc : c = dollarChar
        · rw [if_pos hc, if_pos hc]
          cases htok : dollarTok look t with
          | none => simp only [htok]; exact congrArg _ (ih g t h1' h2')
          | some pr =>
            obtain ⟨out, rest⟩ := pr
            simp only [htok]
            have hlen := dollarTok_rest_length htok
            exact congrArg _ (ih g rest (by omega) (by omega))
        · rw [if_neg hc, if_neg hc]
          exact congrArg _ (ih g t h1' h2')

theorem braceGo_fuel (look : String → Option String) :
    ∀ (f g : Nat) (l : List Char), l.length ≤ f → l.length ≤ g →
      braceGo look f l = braceGo look g l := by
  intro f
  induction f with
  | zero =>
    intro g l h1 _
    obtain rfl : l = [] := List.eq_nil_of_length_eq_zero (Nat.le_zero.mp h1)
    cases g <;> rfl
  | succ f ih =>
    intro g l h1 h2
    cases g with
    | zero =>
      obtain rfl : l = [] := List.eq_nil_of_length_eq_zero (Nat.le_zero.mp h2)
      rfl
    | succ g =>
      cases l with
      | nil => rfl
      | cons c t =>
        have h1' : t.length ≤ f := by simpa using Nat.le_of_succ_le_succ (by simpa using h1)
        have h2' : t.length ≤ g := by simpa using Nat.le_of_succ_le_succ (by simpa using h2)
        simp only [braceGo]
        by_cases hc : c = lbrace
        · rw [if_pos hc, if_pos hc]
          cases htok : braceTok look t with
          | none => simp only [htok]; exact congrArg _ (ih g t h1' h2')
          | some pr =>
            obtain ⟨out, rest⟩ := pr
            simp only [htok]
            have hlen := braceTok_rest_length htok
            exact congrArg _ (ih g rest (by omega) (by omega))
        · rw [if_neg hc, if_neg hc]
          exact congrArg _ (ih g t h1' h2')

theorem dollarRepl_cons_ne (look : String → Option String) {c : Char} {t : List Char}
    (hc : c ≠ dollarChar) : dollarRepl look (c :: t) = c :: dollarRepl look t := by
  show dollarGo look (c :: t).length (c :: t) = c :: dollarGo look t.length t
  simp only [List.length_cons, dollarGo, if_neg hc]

theorem dollarRepl_tok (look : String → Option String) {t out rest : List Char}
    (h : dollarTok look t = some (out, rest)) :
    dollarRepl look (dollarChar :: t) = out ++ dollarRepl look rest := by
  show dollarGo look (dollarChar :: t).length (dollarChar :: t)
      = out ++ dollarGo look rest.length rest
  simp only [List.length_cons, dollarGo]
  rw [if_true]
  simp only [h]
  exact congrArg _ (dollarGo_fuel look t.length rest.length rest
    (Nat.le_of_lt (dollarTok_rest_length h)) le_rfl)

theorem dollarRepl_tok_none (look : String → Option String) {t : List Char}
    (h : dollarTok look t = none) :
    dollarRepl look (dollarChar :: t) = dollarChar :: dollarRepl look t := by
  show dollarGo look (dollarChar :: t).length (dollarChar :: t)
      = dollarChar :: dollarGo look t.length t
  simp only [List.length_cons, dollarGo]
  rw [if_true]
  simp only [h]

theorem braceRepl_cons_ne (look : String → Option String) {c : Char} {t : List Char}
    (hc : c ≠ lbrace) : braceRepl look (c :: t) = c :: braceRepl look t := by
  show braceGo look (c :: t).length (c :: t) = c :: braceGo look t.length t
  simp only [List.length_cons, braceGo, if_neg hc]

theorem braceRepl_tok (look : String → Option String) {t out rest : List Char}
    (h : braceTok look t = some (out, rest)) :
    braceRepl look (lbrace :: t) = out ++ braceRepl look rest := by
  show braceGo look (lbrace :: t).length (lbrace :: t)
      = out ++ braceGo look rest.length rest
  simp only [List.length_cons, braceGo]
  rw [if_true]
  simp only [h]
  exact congrArg _ (braceGo_fuel look t.length rest.length rest
    (Nat.le_of_lt_succ (braceTok_rest_length h)) le_rfl)

theorem dollarRepl_append_clean (look : String → Option String) :
    ∀ (s t : List Char), (∀ c ∈ s, c ≠ dollarChar) →
      dollarRepl look (s ++ t) = s ++ dollarRepl look t := by
  intro s
  induction s with
  | nil => intro t _; simp
  | cons c s ih =>
    intro t hcs
    rw [List.cons_append, dollarRepl_cons_ne look (hcs c (List.mem_cons_self _ _)),
      ih t (fun x hx => hcs x (List.mem_cons_of_mem _ hx))]
    rfl

theorem braceRepl_append_clean (look : String → Option String) :
    ∀ (s t : List Char), (∀ c ∈ s, c ≠ lbrace) →
      braceRepl look (s ++ t) = s ++ braceRepl look t := by
  intro s
  induction s with
  | nil => intro t _; simp
  | cons c s ih =>
    intro t hcs
    rw [List.cons_append, braceRepl_cons_ne look (hcs c (List.mem_cons_self _ _)),
      ih t (fun x hx => hcs x (List.mem_cons_of_mem _ hx))]
    rfl

theorem word_span (k t : List Char) (hk : ∀ c ∈ k, isWordChar c = true) :
    (k ++ rbrace :: t).takeWhile isWordChar = k
    ∧ (k ++ rbrace :: t).dropWhile isWordChar = rbrace :: t := by
  induction k with
  | nil =>
    have hrb : isWordChar rbrace = false := by decide
    constructor
    · simp [List.takeWhile_cons, hrb]
    · simp [List.dropWhile_cons, hrb]
  | cons c k ih =>
    have hc : isWordChar c = true := hk c (List.mem_cons_self _ _)
    have ih' := ih (fun x hx => hk x (List.mem_cons_of_mem _ hx))
    constructor
    · simp [List.takeWhile_cons, hc, ih'.1]
    · simp [List.dropWhile_cons, hc, ih'.2]

theorem dollarTok_token (look : String → Option String) (k : String) (t : List Char)
    (hk1 : k.data ≠ []) (hk2 : ∀ c ∈ k.data, isWordChar c = true) :
    dollarTok look (lbrace :: (k.data ++ rbrace :: t))
      = some ((match look k with
               | some v => v.data
               | none => dollarChar :: lbrace :: (k.data ++ [rbrace])), t) := by
  have hspan := word_span k.data t hk2
  simp only [dollarTok, hspan.1, hspan.2, true_and]
  rw [if_true, if_pos hk1]

theorem braceTok_token (look : String → Option String) (k : String) (t : List Char)
    (hk1 : k.data ≠ []) (hk2 : ∀ c ∈ k.data, isWordChar c = true) :
    braceTok look (k.data ++ rbrace :: t)
      = some ((match look k with
               | some v => v.data
               | none => lbrace :: (k.data ++ [rbrace])), t) := by
  have hspan := word_span k.data t hk2
  simp only [braceTok, hspan.1, hspan.2, true_and]
  rw [if_pos hk1]

theorem wordChar_ne_dollar {c : Char} (h : isWordChar c = true) : c ≠ dollarChar := by
  intro he
  subst he
  exact absurd h (by decide)

theorem wordChar_ne_lbrace {c : Char} (h : isWordChar c = true) : c ≠ lbrace := by
  intro he
  subst he
  exact absurd h (by decide)

theorem dollarRepl_renderToks (look : String → Option String) (ts : List Tok)
    (hkey : ∀ k, (Tok.brace k ∈ ts ∨ Tok.dollar k ∈ ts) →
      k.data ≠ [] ∧ ∀ c ∈ k.data, isWordChar c = true)
    (hlit : ∀ c, Tok.lit c ∈ ts → c ≠ dollarChar ∧ c ≠ lbrace) :
    dollarRepl look (renderToks ts) = substDollarToks look ts := by
  induction ts with
  | nil => rfl
  | cons tk rest ih =>
    have ihh := ih
      (fun k hk => hkey k (by
        rcases hk with h | h
        · exact Or.inl (List.mem_cons_of_mem _ h)
        · exact Or.inr (List.mem_cons_of_mem _ h)))
      (fun c hc => hlit c (List.mem_cons_of_mem _ hc))
    cases tk with
    | lit c =>
      have hc := hlit c (List.mem_cons_self _ _)
      show dollarRepl look ([c] ++ renderToks rest) = _
      rw [dollarRepl_append_clean look [c] _ (by
        intro x hx
        obtain rfl : x = c := by simpa using hx
        exact hc.1)]
      rw [ihh]
      rfl
    | brace k =>
      have hks := hkey k (Or.inl (List.mem_cons_self _ _))
      show dollarRepl look ((lbrace :: (k.data ++ [rbrace])) ++ renderToks rest) = _
      rw [dollarRepl_append_clean look (lbrace :: (k.data ++ [rbrace])) _ (by
        intro x hx
        rcases List.mem_cons.mp hx with rfl | hx
        · decide
        · rcases List.mem_append.mp hx with hx | hx
          · exact wordChar_ne_dollar (hks.2 x hx)
          · obtain rfl : x = rbrace := by simpa using hx
            decide)]
      rw [ihh]
      rfl
    | dollar k =>
      have hks := hkey k (Or.inr (List.mem_cons_self _ _))
      have hshape : renderToks (Tok.dollar k :: rest)
          = dollarChar :: (lbrace :: (k.data ++ rbrace :: renderToks rest)) := by
        show renderTok (Tok.dollar k) ++ renderToks rest = _
        simp [renderTok, List.append_assoc]
      rw [hshape, dollarRepl_tok look (dollarTok_token look k _ hks.1 hks.2), ihh]
      show (match look k with
            | some v => v.data
            | none => dollarChar :: lbrace :: (k.data ++ [rbrace])) ++ substDollarToks look rest
          = substDollarToks look (Tok.dollar k :: rest)
      rfl

theorem braceRepl_substDollar (look : String → Option String) (ts : List Tok)
    (hkey : ∀ k, (Tok.brace k ∈ ts ∨ Tok.dollar k ∈ ts) →
      k.data ≠ [] ∧ ∀ c ∈ k.data, isWordChar c = true)
    (hlit : ∀ c, Tok.lit c ∈ ts → c ≠ dollarChar ∧ c ≠ lbrace)
    (hval : ∀ k v, look k = some v → lbrace ∉ v.data) :
    braceRepl look (substDollarToks look ts) = substToks look ts := by
  induction ts with
  | nil => rfl
  | cons tk rest ih =>
    have ihh := ih
      (fun k hk => hkey k (by
        rcases hk with h | h
        · exact Or.inl (List.mem_cons_of_mem _ h)
        · exact Or.inr (List.mem_cons_of_mem _ h)))
      (fun c hc => hlit c (List.mem_cons_of_mem _ hc))
    cases tk with
    | lit c =>
      have hc := hlit c (List.mem_cons_self _ _)
      show braceRepl look (c :: substDollarToks look rest) = _
      rw [braceRepl_cons_ne look hc.2, ihh]
      rfl
    | brace k =>
      have hks := hkey k (Or.inl (List.mem_cons_self _ _))
      have hshape : substDollarToks look (Tok.brace k :: rest)
          = lbrace :: (k.data ++ rbrace :: substDollarToks look rest) := by
        show lbrace :: (k.data ++ [rbrace]) ++ substDollarToks look rest = _
        simp [List.append_assoc]
      rw [hshape, braceRepl_tok look (braceTok_token look k _ hks.1 hks.2), ihh]
      show (match look k with
            | some v => v.data
            | none => lbrace :: (k.data ++ [rbrace])) ++ substToks look rest
          = substToks look (Tok.brace k :: rest)
      rfl
    | dollar k =>
      have hks := hkey k (Or.inr (List.mem_cons_self _ _))
      cases hv : look k with
      | some v =>
        have hshape : substDollarToks look (Tok.dollar k :: rest)
            = v.data ++ substDollarToks look rest := by
          show (match look k with
                | some v => v.data
                | none => dollarChar :: lbrace :: (k.data ++ [rbrace]))
              ++ substDollarToks look rest = _
          rw [hv]
        rw [hshape, braceRepl_append_clean look v.data _
          (fun c hc he => hval k v hv (he ▸ hc)), ihh]
        show v.data ++ substToks look rest = substTok look (Tok.dollar k) ++ substToks look rest
        simp [substTok, hv]
      | none =>
        have hshape : substDollarToks look (Tok.dollar k :: rest)
            = dollarChar :: (lbrace :: (k.data ++ rbrace :: substDollarToks look rest)) := by
          show (match look k with
                | some v => v.data
                | none => dollarChar :: lbrace :: (k.data ++ [rbrace]))
              ++ substDollarToks look rest = _
          rw [hv]
          simp [List.append_assoc]
        rw [hshape, braceRepl_cons_ne look (by decide),
          braceRepl_tok look (braceTok_token look k _ hks.1 hks.2), ihh]
        show dollarChar :: ((match look k with
              | some v => v.data
              | none => lbrace :: (k.data ++ [rbrace])) ++ substToks look rest)
            = substToks look (Tok.dollar k :: rest)
        rw [hv]
        show dollarChar :: (lbrace :: (k.data ++ [rbrace]) ++ substToks look rest)
            = substTok look (Tok.dollar k) ++ substToks look rest
        simp [substTok, hv]

/-- Counterexample to C8 as stated: a token whose key is present in the map
but maps to the empty string is left verbatim — the source's falsy check
`params[key] || match` refuses empty values — so a present key is not always
replaced by its value. -/
theorem replaceParams_empty_value_counterexample :
    replaceParams "{email}" (fun _ => some "") = "{email}"
    ∧ replaceParams "{email}" (fun _ => some "") ≠ "" := by
  decide

/-- Claim C8 (amended): over any string assembled from literal characters and
tokens in the two forms (well-formed: token keys are non-empty word-character
strings, literal characters are not token openers, and substituted values
carry no brace so the later pass does not re-scan them), `replaceParams`
replaces each token whose key maps to a truthy (non-empty) value — in both
the bare-brace and the dollar-brace forms — and leaves every token whose key
is absent or maps to the empty string verbatim in the output, never raising
an error. -/
theorem replaceParams_token_substitution (params : String → Option String)
    (ts : List Tok)
    (hkey : ∀ k, (Tok.brace k ∈ ts ∨ Tok.dollar k ∈ ts) →
      k.data ≠ [] ∧ ∀ c ∈ k.data, isWordChar c = true)
    (hlit : ∀ c, Tok.lit c ∈ ts → c ≠ dollarChar ∧ c ≠ lbrace)
    (hval : ∀ k v, truthyLookup params k = some v → lbrace ∉ v.data) :
    replaceParams (String.mk (renderToks ts)) params
      = String.mk (substToks (truthyLookup params) ts) := by
  have heq : replaceParams (String.mk (renderToks ts)) params
      = String.mk (braceRepl (truthyLookup params)
          (dollarRepl (truthyLookup params) (renderToks ts))) := by
    unfold replaceParams
    by_cases hs : String.mk (renderToks ts) = ""
    · rw [if_pos hs]
      have hl : renderToks ts = [] := by
        have hdata := congrArg String.data hs
        simpa using hdata
      rw [hs, hl]
      rfl
    · rw [if_neg hs]
  rw [heq, dollarRepl_renderToks _ ts hkey hlit,
    braceRepl_substDollar _ ts hkey hlit hval]

/-- Witness for the amended C8 at the concrete string a-brace-email,
dollar-brace-pw with a map sending every key to "X": both token forms are
substituted. -/
theorem replaceParams_token_substitution_case :
    replaceParams "a{email}${pw}" p0 = "aXX" := by
  have hkey : ∀ k, (Tok.brace k ∈ toks0 ∨ Tok.dollar k ∈ toks0) →
      k.data ≠ [] ∧ ∀ c ∈ k.data, isWordChar c = true := by
    intro k hk
    have hk' : k = "email" ∨ k = "pw" := by
      rcases hk with hk | hk
      · simp [toks0] at hk
        exact Or.inl hk
      · simp [toks0] at hk
        exact Or.inr hk
    rcases hk' with rfl | rfl
    · exact ⟨by decide, by decide⟩
    · exact ⟨by decide, by decide⟩
  have hlit : ∀ c, Tok.lit c ∈ toks0 → c ≠ dollarChar ∧ c ≠ lbrace := by
    intro c hc
    have hc' : c = 'a' := by simp [toks0] at hc; exact hc
    subst hc'
    exact ⟨by decide, by decide⟩
  have hval : ∀ k v, truthyLookup p0 k = some v → lbrace ∉ v.data := by
    intro k v hv
    simp only [truthyLookup, p0] at hv
    split at hv
    · exact absurd hv (by simp)
    · obtain rfl : "X" = v := by simpa using hv
      decide
  have h := replaceParams_token_substitution p0 toks0 hkey hlit hval
  have e1 : String.mk (renderToks toks0) = "a{email}${pw}" := by decide
  have e2 : String.mk (substToks (truthyLookup p0) toks0) = "aXX" := by decide
  rw [e1, e2] at h
  exact h

end QA
